import Mathlib

/-
  Verification of the lemmego/db statement composer, relation loader and
  transaction coordinator.

  Shallow embedding conventions:
  * Go maps that are only ever assigned and looked up by key are modelled as
    association lists with overwrite-in-place semantics.
  * Go pointer/reference aliasing of result rows (maps shared between a parent
    result set and nested relation loads) is modelled with an explicit store:
    rows live in a `Store` (a list indexed by allocation order) and row-valued
    fields hold indices into the store.
  * The external drivers (database/sql, sqlx) are oracles: each operation that
    consults the driver takes the driver's answer (success or a driver error)
    as an explicit argument.
  * Go `int` is modelled as `Int`, Go strings as `String`.
-/

set_option autoImplicit false

namespace DbSpec

/-! ## Transaction coordinator (src/connection.go `BeginTx`/`Commit`/`Rollback`/`InTransaction`,
    src/unnamed/part_011 and part_009 `Transaction`) -/

/-- Error values surfaced by the connection layer.  `alreadyInTransaction` and
    `notInTransaction` are the two sentinel errors created with `errors.New` in
    src/connection.go; `driver n` stands for an arbitrary error value returned
    by the underlying database driver. -/
inductive DbError where
  | alreadyInTransaction
  | notInTransaction
  | driver (code : Nat)
deriving DecidableEq, Repr

/-- Statements are opaque; only their identity matters for atomicity claims. -/
abbrev Stmt := Nat

/-- State of one `Connection` together with the durable state of the underlying
    database it talks to.  `tx = none` models `c.tx == nil`; `tx = some staged`
    models an in-flight `sqlx.Tx` holding the statements executed through it so
    far.  `committed` is the durable statement log of the backing database (the
    external collaborator): statements staged in a transaction become durable
    only when the driver commit succeeds. -/
structure ConnState where
  committed : List Stmt
  tx : Option (List Stmt)
deriving DecidableEq, Repr

/-- Embedding of `Connection.BeginTx` (src/connection.go lines 141-151).  If
    `c.tx != nil` it returns the already-in-a-transaction error without touching
    the state; otherwise it asks the driver to begin (`driverBegin` is the
    driver's answer, `none` meaning success) and on success stores the new
    (empty) transaction. -/
def beginTx (c : ConnState) (driverBegin : Option Nat) : Option DbError × ConnState :=
  match c.tx with
  | some _ => (some .alreadyInTransaction, c)
  | none =>
    match driverBegin with
    | some k => (some (.driver k), c)
    | none => (none, { c with tx := some [] })

/-- Embedding of `Connection.Commit` (src/connection.go lines 153-161).  With no
    transaction it returns the not-in-a-transaction error and changes nothing.
    Otherwise it invokes the driver commit and clears `c.tx` regardless of the
    driver's answer; the staged statements become durable exactly when the
    driver commit succeeds (collaborator semantics). -/
def commit (c : ConnState) (driverCommit : Option Nat) : Option DbError × ConnState :=
  match c.tx with
  | none => (some .notInTransaction, c)
  | some staged =>
    match driverCommit with
    | none => (none, { committed := c.committed ++ staged, tx := none })
    | some k => (some (.driver k), { c with tx := none })

/-- Embedding of `Connection.Rollback` (src/connection.go lines 163-171).  With
    no transaction it returns the not-in-a-transaction error and changes
    nothing; otherwise it invokes the driver rollback and clears `c.tx`
    regardless of the driver's answer.  The staged statements are discarded
    (collaborator semantics of a rollback). -/
def rollback (c : ConnState) (driverRollback : Option Nat) : Option DbError × ConnState :=
  match c.tx with
  | none => (some .notInTransaction, c)
  | some _ => ((driverRollback.map .driver : Option DbError), { c with tx := none })

/-- Embedding of `Connection.InTransaction` (src/connection.go lines 173-176). -/
def inTransaction (c : ConnState) : Bool := c.tx.isSome

/-- Routing of statement execution (`QueryBuilder.Exec`/`Fetch` in
    src/unnamed/part_011): while `InTransaction()` holds, statements go to the
    transactional handle (staged), otherwise to the ambient connection handle
    (immediately durable). -/
def execStmts (c : ConnState) (stmts : List Stmt) : ConnState :=
  match c.tx with
  | some staged => { c with tx := some (staged ++ stmts) }
  | none => { c with committed := c.committed ++ stmts }

/-- Outcome of the user callback `fn` passed to `Transaction`: it returns `nil`,
    returns a non-nil error, or panics with some value `p`. -/
inductive FnOutcome where
  | ok
  | err (e : DbError)
  | panics (p : Nat)
deriving DecidableEq, Repr

/-- Behaviour of the callback: the statements it executes through the
    transaction-bound query builder, then how it finishes. -/
structure FnBehavior where
  stmts : List Stmt
  outcome : FnOutcome
deriving DecidableEq, Repr

/-- Result observed by the caller of `Transaction`: a normal return carrying an
    error value (or `none`), or a re-raised panic carrying the panic value. -/
inductive TxnResult where
  | ret (e : Option DbError)
  | panicked (p : Nat)
deriving DecidableEq, Repr

/-- Trace entry recording which coordinator operation `Transaction` invoked on
    the connection. -/
inductive TxAction where
  | beginT
  | commitT
  | rollbackT
deriving DecidableEq, Repr

/-- Embedding of `QueryBuilder.Transaction` (src/unnamed/part_011 lines 552-579,
    identical in part_009 lines 970-994).  The Go function has an unnamed
    `error` result, so `return txErr` fixes the caller-visible result before the
    deferred function runs; the deferred assignment `txErr = txQB.conn.Commit()`
    mutates a dead local and cannot change the already-set result.  This model
    reproduces that: in the `ok` branch the commit is invoked (its state effect
    and trace entry happen) but the result is `ret none` independent of the
    commit error.  In the panic branch `recover` fires, rollback is invoked
    (its error discarded) and the same panic value is re-raised; in the error
    branch rollback is invoked (error discarded) and the callback's error is
    returned. -/
def transaction (c : ConnState) (driverBegin driverCommit driverRollback : Option Nat)
    (fn : FnBehavior) : TxnResult × ConnState × List TxAction :=
  match beginTx c driverBegin with
  | (some e, c') => (.ret (some e), c', [.beginT])
  | (none, c1) =>
    let c2 := execStmts c1 fn.stmts
    match fn.outcome with
    | .panics p => (.panicked p, (rollback c2 driverRollback).2, [.beginT, .rollbackT])
    | .err e => (.ret (some e), (rollback c2 driverRollback).2, [.beginT, .rollbackT])
    | .ok => (.ret none, (commit c2 driverCommit).2, [.beginT, .commitT])

/-- A concrete quiescent connection used in witnesses and counterexamples. -/
def idleConn : ConnState := { committed := [], tx := none }

/-- A concrete connection with an active transaction holding one staged
    statement. -/
def busyConn : ConnState := { committed := [], tx := some [7] }

/-- Claim C1 (code bug evidence).  With an idle connection, a driver begin that
    succeeds and a callback that returns nil after executing statement 42, a
    failing driver commit (error code 7) is invoked by `Transaction` (the trace
    ends in the commit action and the staged statement is not durable), yet the
    caller-visible result is `ret none`: the commit error is dropped because the
    deferred assignment cannot reach the already-filled unnamed return slot. -/
theorem transaction_commit_error_dropped :
    (transaction idleConn none (some 7) none ⟨[42], .ok⟩).1 = .ret none ∧
    (transaction idleConn none (some 7) none ⟨[42], .ok⟩).2.2 = [.beginT, .commitT] ∧
    (transaction idleConn none (some 7) none ⟨[42], .ok⟩).2.1 =
      { committed := [], tx := none } ∧
    (commit (execStmts { idleConn with tx := some [] } [42]) (some 7)).1 =
      some (.driver 7) := by
  decide

/-- Claim C2.  Whenever `Begin` succeeds (idle connection, driver begin
    succeeds): if the callback panics with value `p` after executing any
    statements, `Transaction` rolls back (trace `[begin, rollback]`) and
    re-raises the identical panic value; if the callback returns a non-nil
    error `e`, `Transaction` rolls back and returns that same error.  In both
    cases the durable statement log is unchanged, so nothing the callback
    executed remains committed. -/
theorem transaction_fn_failure_rolls_back (c : ConnState) (dC dR : Option Nat)
    (stmts : List Stmt) (p : Nat) (e : DbError) (h : c.tx = none) :
    (transaction c none dC dR ⟨stmts, .panics p⟩).1 = .panicked p ∧
    (transaction c none dC dR ⟨stmts, .panics p⟩).2.2 = [.beginT, .rollbackT] ∧
    (transaction c none dC dR ⟨stmts, .panics p⟩).2.1.committed = c.committed ∧
    (transaction c none dC dR ⟨stmts, .err e⟩).1 = .ret (some e) ∧
    (transaction c none dC dR ⟨stmts, .err e⟩).2.2 = [.beginT, .rollbackT] ∧
    (transaction c none dC dR ⟨stmts, .err e⟩).2.1.committed = c.committed := by
  simp [transaction, beginTx, execStmts, rollback, h]

/-- Witness for claim C2 at a concrete idle connection. -/
theorem transaction_fn_failure_rolls_back_witness :
    (transaction idleConn none none none ⟨[5], .panics 3⟩).1 = .panicked 3 ∧
    (transaction idleConn none none none ⟨[5], .panics 3⟩).2.2 = [.beginT, .rollbackT] ∧
    (transaction idleConn none none none ⟨[5], .panics 3⟩).2.1.committed = idleConn.committed ∧
    (transaction idleConn none none none ⟨[5], .err (.driver 1)⟩).1 = .ret (some (.driver 1)) ∧
    (transaction idleConn none none none ⟨[5], .err (.driver 1)⟩).2.2 = [.beginT, .rollbackT] ∧
    (transaction idleConn none none none ⟨[5], .err (.driver 1)⟩).2.1.committed = idleConn.committed :=
  transaction_fn_failure_rolls_back idleConn none none [5] 3 (.driver 1) rfl

/-- Claim C8.  While a transaction is active, a second `BeginTx` fails with the
    already-in-a-transaction error, leaves the connection state (and in
    particular the existing active transaction) untouched, whatever the driver
    would have answered; so a connection never holds two in-flight
    transactions. -/
theorem beginTx_second_begin_fails (c : ConnState) (t : List Stmt) (dB : Option Nat)
    (h : c.tx = some t) :
    beginTx c dB = (some .alreadyInTransaction, c) ∧ (beginTx c dB).2.tx = some t := by
  simp [beginTx, h]

/-- Witness for claim C8 at a concrete busy connection. -/
theorem beginTx_second_begin_fails_witness :
    beginTx busyConn none = (some .alreadyInTransaction, busyConn) ∧
    (beginTx busyConn none).2.tx = some [7] :=
  beginTx_second_begin_fails busyConn [7] none rfl

/-- Claim C9.  After `Commit` or `Rollback` on a connection holding an active
    transaction — whether the driver call succeeds or errors — the transaction
    reference is cleared: `InTransaction()` is false and a subsequent `BeginTx`
    is never rejected with the already-in-a-transaction error.  `Commit` and
    `Rollback` on a connection with no transaction return the
    not-in-a-transaction error and leave the state unchanged. -/
theorem commit_rollback_clear_transaction (c : ConnState) (s : List Stmt)
    (dC dR : Option Nat) (h : c.tx = some s) :
    (commit c dC).2.tx = none ∧ inTransaction (commit c dC).2 = false ∧
    (∀ dB : Option Nat, (beginTx (commit c dC).2 dB).1 ≠ some .alreadyInTransaction) ∧
    (rollback c dR).2.tx = none ∧ inTransaction (rollback c dR).2 = false ∧
    (∀ dB : Option Nat, (beginTx (rollback c dR).2 dB).1 ≠ some .alreadyInTransaction) ∧
    (∀ c' : ConnState, c'.tx = none →
      commit c' dC = (some .notInTransaction, c') ∧
      rollback c' dR = (some .notInTransaction, c')) := by
  refine ⟨?_, ?_, ?_, ?_, ?_, ?_, ?_⟩
  · cases dC <;> simp [commit, h]
  · cases dC <;> simp [commit, inTransaction, h]
  · intro dB
    cases dC <;> cases dB <;> simp [commit, beginTx, h]
  · simp [rollback, h]
  · simp [rollback, inTransaction, h]
  · intro dB
    cases dB <;> simp [rollback, beginTx, h]
  · intro c' h'
    exact ⟨by simp [commit, h'], by simp [rollback, h']⟩

/-- Witness for claim C9 at a concrete busy connection with a failing driver
    commit and a failing driver rollback. -/
theorem commit_rollback_clear_transaction_witness :
    (commit busyConn (some 2)).2.tx = none ∧
    inTransaction (commit busyConn (some 2)).2 = false ∧
    (∀ dB : Option Nat, (beginTx (commit busyConn (some 2)).2 dB).1 ≠ some .alreadyInTransaction) ∧
    (rollback busyConn (some 3)).2.tx = none ∧
    inTransaction (rollback busyConn (some 3)).2 = false ∧
    (∀ dB : Option Nat, (beginTx (rollback busyConn (some 3)).2 dB).1 ≠ some .alreadyInTransaction) ∧
    (∀ c' : ConnState, c'.tx = none →
      commit c' (some 2) = (some .notInTransaction, c') ∧
      rollback c' (some 3) = (some .notInTransaction, c')) :=
  commit_rollback_clear_transaction busyConn [7] (some 2) (some 3) rfl

/-! ## Select builder surface used by `Page` and `Cursor`
    (src/unnamed/part_011 lines 476-522)

    The underlying go-sqlbuilder SelectBuilder is an external collaborator; the
    operations the pagination layer uses are modelled by their documented
    behaviour: `Where` appends a predicate, `OrderBy` appends order columns,
    `Limit` and `Offset` overwrite the current limit/offset. -/

/-- Predicates produced by the `Cond` convenience methods that `Cursor` uses:
    `GreaterThan(field, value)` and `LessThan(field, value)`. -/
inductive Pred where
  | gt (field value : String)
  | lt (field value : String)
deriving DecidableEq, Repr

/-- Observable accumulator state of a SELECT builder, restricted to the parts
    `Page` and `Cursor` touch. -/
structure SelectQ where
  whereConds : List Pred
  orderCols : List String
  limit : Option Int
  offset : Option Int
deriving DecidableEq, Repr

/-- Fresh SELECT builder state. -/
def SelectQ.empty : SelectQ := ⟨[], [], none, none⟩

/-- Model of `Where` on the select builder: appends a predicate. -/
def SelectQ.whereAdd (q : SelectQ) (p : Pred) : SelectQ :=
  { q with whereConds := q.whereConds ++ [p] }

/-- Model of `OrderBy` on the select builder: appends order columns. -/
def SelectQ.orderByAdd (q : SelectQ) (col : String) : SelectQ :=
  { q with orderCols := q.orderCols ++ [col] }

/-- Model of `Limit`: overwrites the current limit. -/
def SelectQ.setLimit (q : SelectQ) (n : Int) : SelectQ := { q with limit := some n }

/-- Model of `Offset`: overwrites the current offset. -/
def SelectQ.setOffset (q : SelectQ) (n : Int) : SelectQ := { q with offset := some n }

/-- Embedding of `QueryBuilder.Cursor` (src/unnamed/part_011 lines 490-522):
    empty cursor value applies `Limit(1)` only; otherwise direction `next` adds
    `field > cursor`, `prev` adds `field < cursor`, any other direction falls to
    the default branch which also adds `field > cursor`; ordering is
    `field DESC` exactly for `prev` and `field` (ascending) otherwise; both
    paths finish with `Limit(1)`. -/
def cursorQ (q : SelectQ) (cursor direction cursorField : String) : SelectQ :=
  if cursor = "" then q.setLimit 1
  else
    ((match direction with
      | "next" => q.whereAdd (.gt cursorField cursor)
      | "prev" => q.whereAdd (.lt cursorField cursor)
      | _ => q.whereAdd (.gt cursorField cursor)).orderByAdd
        (if direction = "prev" then cursorField ++ " DESC" else cursorField)).setLimit 1

/-- Embedding of `QueryBuilder.Page` (src/unnamed/part_011 lines 476-488):
    normalizes `page < 1` to 1 and `perPage < 1` to 10, then applies
    `Limit(perPage)` and `Offset((page-1)*perPage)`. -/
def pageQ (q : SelectQ) (page perPage : Int) : SelectQ :=
  let page1 := if page < 1 then 1 else page
  let perPage1 := if perPage < 1 then 10 else perPage
  let off := (page1 - 1) * perPage1
  (q.setLimit perPage1).setOffset off

/-! ### Reference execution semantics for a paginated SELECT

    Rows are column-to-integer maps; a query is run by filtering with the
    predicates, sorting by the order columns (a trailing " DESC" means
    descending), then applying OFFSET and LIMIT, matching SQL evaluation
    order. -/

/-- Numeric value of a digit string, `none` when the string is empty or
    contains a non-digit (reducible stand-in for the standard parser). -/
def digitsVal (l : List Char) : Option Nat :=
  if l ≠ [] ∧ l.all Char.isDigit then
    some (l.foldl (fun acc c => acc * 10 + (c.toNat - Char.toNat (Char.ofNat 48))) 0)
  else none

/-- Integer parsing of a decimal string, with optional leading minus sign. -/
def strToInt? (s : String) : Option Int :=
  match s.data with
  | '-' :: rest => (digitsVal rest).map (fun n => -(n : Int))
  | l => (digitsVal l).map (fun n => (n : Int))

/-- Rows used by the reference execution semantics. -/
abbrev QRow := List (String × Int)

/-- Column lookup in a row. -/
def qlookup (r : QRow) (f : String) : Option Int :=
  (r.find? (fun p => p.1 == f)).map (fun p => p.2)

/-- Predicate evaluation: the cursor value (an SQL text parameter) is compared
    numerically with the column, as the database would for an integer column. -/
def evalPred (p : Pred) (r : QRow) : Bool :=
  match p with
  | .gt f v =>
    match qlookup r f, strToInt? v with
    | some x, some c => decide (c < x)
    | _, _ => false
  | .lt f v =>
    match qlookup r f, strToInt? v with
    | some x, some c => decide (x < c)
    | _, _ => false

/-- Splits an order column into column name and descending flag. -/
def parseOrd (s : String) : String × Bool :=
  if (" DESC".data.isSuffixOf s.data) then (s.dropRight 5, true) else (s, false)

/-- Insertion step of a stable insertion sort on rows. -/
def insertRow (key : QRow → Int) (desc : Bool) (a : QRow) : List QRow → List QRow
  | [] => [a]
  | b :: bs =>
    if (if desc then key a ≤ key b else key b ≤ key a) then b :: insertRow key desc a bs
    else a :: b :: bs

/-- Stable insertion sort of rows by a key. -/
def sortRows (key : QRow → Int) (desc : Bool) (rows : List QRow) : List QRow :=
  rows.foldl (fun acc a => insertRow key desc a acc) []

/-- Reference execution of a SELECT builder state over a table. -/
def runQ (q : SelectQ) (rows : List QRow) : List QRow :=
  let filtered := rows.filter (fun r => q.whereConds.all (fun p => evalPred p r))
  let sorted := q.orderCols.foldr
    (fun spec acc =>
      sortRows (fun r => (qlookup r (parseOrd spec).1).getD 0) (parseOrd spec).2 acc)
    filtered
  let dropped := sorted.drop (q.offset.getD 0).toNat
  match q.limit with
  | none => dropped
  | some l => dropped.take l.toNat

/-- Five ordered rows with ids 1..5, the table of the spec's pagination and
    cursor examples. -/
def idRows : List QRow :=
  [[("id", 1)], [("id", 2)], [("id", 3)], [("id", 4)], [("id", 5)]]

/-- Running a builder state whose limit is 1 yields at most one row. -/
theorem runQ_limit_one_le (q : SelectQ) (rows : List QRow) (h : q.limit = some 1) :
    (runQ q rows).length ≤ 1 := by
  simp only [runQ, h]
  simp [List.length_take_le]

/-- Branch lemma: an empty cursor value only applies LIMIT 1. -/
theorem cursorQ_empty_cursor (q : SelectQ) (dir f : String) :
    cursorQ q "" dir f = q.setLimit 1 := by
  simp [cursorQ]

/-- Branch lemma: direction "prev" adds `f < cv` and orders by `f DESC`. -/
theorem cursorQ_prev (q : SelectQ) (cv f : String) (h : cv ≠ "") :
    cursorQ q cv "prev" f =
      ((q.whereAdd (.lt f cv)).orderByAdd (f ++ " DESC")).setLimit 1 := by
  simp [cursorQ, h]

/-- Branch lemma: any direction other than "prev" adds `f > cv` and orders by
    `f` ascending. -/
theorem cursorQ_nonprev (q : SelectQ) (cv dir f : String) (hcv : cv ≠ "")
    (hd : dir ≠ "prev") :
    cursorQ q cv dir f = ((q.whereAdd (.gt f cv)).orderByAdd f).setLimit 1 := by
  unfold cursorQ
  rw [if_neg hcv, if_neg hd]
  congr 1
  split
  · rfl
  · exact absurd rfl hd
  · rfl

/-- Claim C4.  `Cursor(cursorValue, direction, field)`: with empty cursorValue
    it only sets LIMIT 1 (no predicate, no ordering added); with non-empty
    cursorValue and direction "prev" it adds `field < cursorValue` and orders
    `field DESC`; with any other direction it adds `field > cursorValue` and
    orders `field` ascending; in every branch the final limit is 1, so the
    result has at most one row regardless of any previously requested page
    size; and on ids 1..5 the spec's cursor examples hold. -/
theorem cursor_pagination_spec (q : SelectQ) (cv dir f : String) :
    (cv = "" → cursorQ q cv dir f = q.setLimit 1) ∧
    (cv ≠ "" → dir = "prev" →
      cursorQ q cv dir f = ((q.whereAdd (.lt f cv)).orderByAdd (f ++ " DESC")).setLimit 1) ∧
    (cv ≠ "" → dir ≠ "prev" →
      cursorQ q cv dir f = ((q.whereAdd (.gt f cv)).orderByAdd f).setLimit 1) ∧
    (cursorQ q cv dir f).limit = some 1 ∧
    (∀ rows : List QRow, (runQ (cursorQ q cv dir f) rows).length ≤ 1) ∧
    runQ (cursorQ .empty "2" "next" "id") idRows = [[("id", 3)]] ∧
    runQ (cursorQ .empty "4" "prev" "id") idRows = [[("id", 3)]] ∧
    runQ (cursorQ .empty "5" "next" "id") idRows = [] ∧
    runQ (cursorQ .empty "" "next" "id") idRows = [[("id", 1)]] := by
  have hlim : (cursorQ q cv dir f).limit = some 1 := by
    by_cases hcv : cv = ""
    · subst hcv; rw [cursorQ_empty_cursor]; rfl
    · by_cases hd : dir = "prev"
      · subst hd; rw [cursorQ_prev q cv f hcv]; rfl
      · rw [cursorQ_nonprev q cv dir f hcv hd]; rfl
  refine ⟨?_, ?_, ?_, hlim, ?_, ?_, ?_, ?_, ?_⟩
  · intro hcv; subst hcv; exact cursorQ_empty_cursor q dir f
  · intro hcv hd; subst hd; exact cursorQ_prev q cv f hcv
  · intro hcv hd; exact cursorQ_nonprev q cv dir f hcv hd
  · intro rows; exact runQ_limit_one_le _ rows hlim
  · decide
  · decide
  · decide
  · decide

/-- Witness for claim C4: the three branches at concrete inputs. -/
theorem cursor_pagination_spec_witness :
    cursorQ .empty "" "next" "id" = SelectQ.empty.setLimit 1 ∧
    cursorQ .empty "2" "prev" "id" =
      ((SelectQ.empty.whereAdd (.lt "id" "2")).orderByAdd ("id" ++ " DESC")).setLimit 1 ∧
    cursorQ .empty "2" "sideways" "id" =
      ((SelectQ.empty.whereAdd (.gt "id" "2")).orderByAdd "id").setLimit 1 :=
  ⟨(cursor_pagination_spec .empty "" "next" "id").1 rfl,
   (cursor_pagination_spec .empty "2" "prev" "id").2.1 (by decide) rfl,
   (cursor_pagination_spec .empty "2" "sideways" "id").2.2.1 (by decide) (by decide)⟩

/-- Claim C6.  `Page(page, perPage)` normalizes `page < 1` to 1 and
    `perPage < 1` to 10, sets the limit to the normalized perPage and the
    offset to `(page-1)*perPage`, touching neither predicates nor ordering;
    `page(2,2)` over rows 1..5 returns exactly the two rows starting at id 3,
    `page(0,2)` is identical to `page(1,2)`, and `page(1,0)` returns up to 10
    rows (all five here). -/
theorem page_pagination_formula (q : SelectQ) (page perPage : Int) :
    pageQ q page perPage =
      (q.setLimit (if perPage < 1 then 10 else perPage)).setOffset
        (((if page < 1 then 1 else page) - 1) * (if perPage < 1 then 10 else perPage)) ∧
    (pageQ q page perPage).whereConds = q.whereConds ∧
    (pageQ q page perPage).orderCols = q.orderCols ∧
    pageQ q 0 2 = pageQ q 1 2 ∧
    (pageQ q 1 0).limit = some 10 ∧
    runQ (pageQ .empty 2 2) idRows = [[("id", 3)], [("id", 4)]] ∧
    runQ (pageQ .empty 0 2) idRows = runQ (pageQ .empty 1 2) idRows ∧
    runQ (pageQ .empty 1 0) idRows = idRows ∧
    (runQ (pageQ .empty 1 0) idRows).length ≤ 10 := by
  refine ⟨rfl, rfl, rfl, by norm_num [pageQ], rfl, by decide, by decide, by decide, by decide⟩

/-! ## Table alias resolution (src/unnamed/part_010 `resolveTableAlias`,
    lines 279-312) -/

/-- Assignment into a Go `map[string]string`, modelled on an association list
    that keeps insertion order for iteration: an existing key is overwritten in
    place, a new key is appended. -/
def mapSet : List (String × String) → String → String → List (String × String)
  | [], k, v => [(k, v)]
  | (k1, v1) :: rest, k, v =>
    if k1 = k then (k, v) :: rest else (k1, v1) :: mapSet rest k v

/-- Splitting of a character list by a separator, the behaviour of Go
    `strings.Split` for a non-empty separator.  The fuel argument (always
    called with `l.length + 1`) makes the recursion structural so that
    concrete instances reduce inside the kernel. -/
def splitSepFuel : Nat → List Char → List Char → List (List Char)
  | 0, _, l => [l]
  | _ + 1, _, [] => [[]]
  | fuel + 1, sep, c :: rest =>
    if sep.isPrefixOf (c :: rest) then
      [] :: splitSepFuel fuel sep ((c :: rest).drop sep.length)
    else
      match splitSepFuel fuel sep rest with
      | [] => [[c]]
      | h :: t => (c :: h) :: t

/-- Go `strings.Split` on character lists (non-empty separator). -/
def splitSep (sep l : List Char) : List (List Char) :=
  splitSepFuel (l.length + 1) sep l

/-- Embedding of `QueryBuilder.resolveTableAlias` (src/unnamed/part_010 lines
    279-312) acting on the builder's `tableAliasMap`.  If the lowered table
    name splits on " as " into more than one part, the second part is
    registered verbatim as the alias.  Otherwise the candidate starts at
    `firstLetter ++ "0"` and a single pass over the map's values bumps the
    index every time the current candidate is seen; the resulting alias is
    registered under the table name (overwriting any previous registration,
    since the map is never consulted by key).  Returns the alias and the
    updated map. -/
def resolveTableAlias (m : List (String × String)) (tableName : String) :
    String × List (String × String) :=
  let parts := splitSep (" as ".data) (tableName.data.map Char.toLower)
  if parts.length > 1 then
    let a2 := String.mk (parts.getD 1 [])
    (a2, mapSet m tableName a2)
  else
    let first := tableName.take 1
    let st := (m.map (fun p => p.2)).foldl
      (fun (st : Nat × String) v =>
        if v = st.2 then (st.1 + 1, first ++ toString (st.1 + 1)) else st)
      (0, first ++ toString (0 : Nat))
    (st.2, mapSet m tableName st.2)

/-- Fold helper: the alias-candidate bumping pass leaves its state unchanged
    when no scanned value equals the current candidate. -/
theorem bumpFold_stay (first : String) (vs : List String) (st : Nat × String)
    (h : ∀ v ∈ vs, v ≠ st.2) :
    vs.foldl (fun st v =>
      if v = st.2 then (st.1 + 1, first ++ toString (st.1 + 1)) else st) st = st := by
  induction vs generalizing st with
  | nil => rfl
  | cons v vs ih =>
    have hv : v ≠ st.2 := h v (by simp)
    simp only [List.foldl_cons, if_neg hv]
    exact ih st (fun v' hv' => h v' (by simp [hv']))

/-- Claim C5 counterexample.  Resolving the same table name again does not
    return the alias registered for it the first time: after `users` is
    registered as `u0`, resolving `users` once more yields `u1`. -/
theorem resolveTableAlias_rereg_counterexample :
    (resolveTableAlias [] "users").1 = "u0" ∧
    (resolveTableAlias (resolveTableAlias [] "users").2 "users").1 = "u1" ∧
    (resolveTableAlias (resolveTableAlias [] "users").2 "users").1 ≠
      (resolveTableAlias [] "users").1 := by
  decide

/-- Claim C5 (amended).  A table with no " as " alias and whose candidate
    `<firstLetter>0` collides with no already-assigned alias receives
    `<firstLetter>0`; for {users, uploads} the two assigned aliases are `u0`
    and `u1`, which are distinct; but resolving the same table name again
    re-runs the assignment against the registered alias values, returning the
    next index instead of the registered alias and overwriting the map entry
    (`users` twice yields `u0` then `u1`). -/
theorem resolveTableAlias_amended (m : List (String × String)) (t : String)
    (hsplit : ¬ (splitSep (" as ".data) (t.data.map Char.toLower)).length > 1)
    (hfree : ∀ p ∈ m, p.2 ≠ t.take 1 ++ toString (0 : Nat)) :
    (resolveTableAlias m t).1 = t.take 1 ++ toString (0 : Nat) ∧
    (resolveTableAlias [] "users").1 = "u0" ∧
    (resolveTableAlias [("users", "u0")] "uploads").1 = "u1" ∧
    (resolveTableAlias [("users", "u0")] "uploads").1 ≠ "u0" ∧
    (resolveTableAlias [("users", "u0")] "users").1 = "u1" ∧
    (resolveTableAlias [("users", "u0")] "users").2 = [("users", "u1")] := by
  refine ⟨?_, by decide, by decide, by decide, by decide, by decide⟩
  simp only [resolveTableAlias, if_neg hsplit]
  have : ∀ v ∈ m.map (fun p => p.2), v ≠ t.take 1 ++ toString (0 : Nat) := by
    intro v hv
    rcases List.mem_map.mp hv with ⟨p, hp, rfl⟩
    exact hfree p hp
  rw [bumpFold_stay (t.take 1) (m.map (fun p => p.2)) (0, t.take 1 ++ toString (0 : Nat)) this]

/-- Witness for claim C5 (amended) at the fresh table `posts` against a map
    already holding the users alias. -/
theorem resolveTableAlias_amended_witness :
    (resolveTableAlias [("users", "u0")] "posts").1 =
      ("posts".take 1 ++ toString (0 : Nat)) ∧
    (resolveTableAlias [] "users").1 = "u0" ∧
    (resolveTableAlias [("users", "u0")] "uploads").1 = "u1" ∧
    (resolveTableAlias [("users", "u0")] "uploads").1 ≠ "u0" ∧
    (resolveTableAlias [("users", "u0")] "users").1 = "u1" ∧
    (resolveTableAlias [("users", "u0")] "users").2 = [("users", "u1")] :=
  resolveTableAlias_amended [("users", "u0")] "posts" (by decide) (by decide)

/-! ## Relation loader (src/unnamed/part_010 `Get`/`loadRelation`,
    lines 497-699, and the relation type constants of src/unnamed/part_000)

    Result rows in Go are `map[string]interface{}` values shared by reference
    between the root result set and nested relation loads.  The embedding makes
    the aliasing explicit: rows live in a `Store` indexed by allocation order,
    and a row field holds either a scalar, a reference to one row, or a list of
    row references. -/

/-- Relation type constants (src/unnamed/part_000). -/
def OneToOne : String := "o2o"

/-- One-to-many relation type constant (src/unnamed/part_000). -/
def OneToMany : String := "o2m"

/-- Value stored under a column key of a result row: the SQL null / missing
    value, a scalar (every scanned column arrives as a string through
    `sql.RawBytes`), a reference to a single attached row, or a list of
    references to attached rows. -/
inductive Val where
  | null
  | str (s : String)
  | ref (i : Nat)
  | refs (l : List Nat)
deriving DecidableEq, Repr

/-- A result row: an association list from column keys to values, with
    overwrite-in-place assignment like a Go map. -/
abbrev Row := List (String × Val)

/-- The row store; indices are allocation order, fetched rows are appended. -/
abbrev Store := List Row

/-- Go map read `r[k]`: the value under `k`, or the nil interface (`null`)
    when the key is absent. -/
def rowGet : Row → String → Val
  | [], _ => .null
  | (k1, v) :: rest, k => if k1 = k then v else rowGet rest k

/-- Go comma-ok test `_, ok := r[k]`. -/
def rowHas : Row → String → Bool
  | [], _ => false
  | (k1, _) :: rest, k => if k1 = k then true else rowHas rest k

/-- Go map assignment `r[k] = v`: overwrites the entry in place or appends. -/
def rowSet : Row → String → Val → Row
  | [], k, v => [(k, v)]
  | (k1, v1) :: rest, k, v =>
    if k1 = k then (k, v) :: rest else (k1, v1) :: rowSet rest k v

/-- Row read from the store (rows are indexed by allocation order). -/
def storeGet (st : Store) (i : Nat) : Row := st.getD i []

/-- Row replacement in the store (no-op outside the allocated range). -/
def storeSet (st : Store) (i : Nat) (r : Row) : Store := st.set i r

/-- The backing database for relation loads: table name to stored rows. -/
abbrev DBase := List (String × List Row)

/-- Rows of a table of the backing database. -/
def dbTable (db : DBase) (t : String) : List Row :=
  match db.find? (fun p => p.1 == t) with
  | some p => p.2
  | none => []

/-- The child SELECT issued by `loadRelation`:
    `Select(cols...).From(table).Where(In(fkCol, parentIDs...))`. -/
structure ChildQuery where
  table : String
  cols : List String
  fkCol : String
  parentIDs : List Val
deriving DecidableEq, Repr

/-- Projection of a stored row onto the requested columns: `rows.Scan` yields
    one entry per requested column, in request order. -/
def projectRow (cols : List String) (r : Row) : Row :=
  cols.map (fun c => (c, rowGet r c))

/-- Collaborator semantics of executing a child SELECT: the table's rows whose
    foreign-key column value is among the parent ids, projected onto the
    requested columns, in table order. -/
def execQuery (db : DBase) (q : ChildQuery) : List Row :=
  ((dbTable db q.table).filter
    (fun r => decide (rowGet r q.fkCol ∈ q.parentIDs))).map (projectRow q.cols)

/-- The group of a parent id inside the grouped child results: the store
    indices (base + fetch position) of the fetched rows whose foreign-key value
    equals the parent id, in fetch order.  The Go code builds a map from
    foreign-key value to the slice of its rows and looks it up per parent; the
    looked-up slice is exactly this list, and the map has an entry for the
    parent id exactly when this list is non-empty. -/
def groupIdxs (fetched : List Row) (base : Nat) (fk : String) (v : Val) : List Nat :=
  ((List.range fetched.length).filter
    (fun j => decide (rowGet (fetched.getD j []) fk = v))).map (fun j => j + base)

/-- Model of the `inflection` collaborator for the regular nouns appearing in
    this repository: `Singular` strips a trailing "s", `Plural` appends one if
    missing. -/
def singular (s : String) : String :=
  if ("s".data.isSuffixOf s.data) then s.dropRight 1 else s

/-- Plural form; see `singular`. -/
def plural (s : String) : String :=
  if ("s".data.isSuffixOf s.data) then s else s ++ "s"

/-- A relation descriptor (`Rel` in src/unnamed/part_010 lines 497-512): name,
    relation type, target table, requested columns, and an optional nested
    relation (`Rel *Rel`, nil-able pointer modelled as `Option`). -/
inductive Rel : Type where
  | mk (name ty table : String) (cols : List String) (child : Option Rel)
deriving Repr

/-- Relation type accessor. -/
def Rel.ty : Rel → String
  | .mk _ ty _ _ _ => ty

/-- Target table accessor. -/
def Rel.table : Rel → String
  | .mk _ _ t _ _ => t

/-- Requested columns accessor. -/
def Rel.cols : Rel → List String
  | .mk _ _ _ c _ => c

/-- Nested relation accessor (`rel.Rel`). -/
def Rel.child : Rel → Option Rel
  | .mk _ _ _ _ ch => ch

/-- The attachment key for a relation: singular of the child table for
    one-to-one, plural otherwise (src/unnamed/part_010 lines 641-645). -/
def relKey (rel : Rel) : String :=
  if rel.ty = OneToOne then singular rel.table else plural rel.table

/-- Value bound under the relation key for one parent, given the looked-up
    group `related` (src/unnamed/part_010 lines 650-667): with a non-empty
    group, the first grouped row for one-to-one (the Go guard
    `len(related) > 0` always holds when the map lookup succeeds, since groups
    are built by appending) and the whole grouped slice otherwise; with no
    group, the null sentinel for one-to-one and the empty slice otherwise. -/
def attachVal (ty : String) (related : List Nat) : Val :=
  if related = [] then (if ty = OneToOne then .null else .refs [])
  else (if ty = OneToOne then .ref (related.headD 0) else .refs related)

/-- One step of the attach loop (src/unnamed/part_010 lines 647-668) for a
    single parent row: look up the group of the parent's `id` and bind the
    attachment value under the relation key. -/
def attachOne (ty key : String) (fetched : List Row) (base : Nat) (fk : String)
    (s : Store) (pid : Nat) : Store :=
  let p := storeGet s pid
  storeSet s pid (rowSet p key (attachVal ty (groupIdxs fetched base fk (rowGet p "id"))))

/-- The attach loop over all parents, in result-set order. -/
def attachAll (ty key : String) (fetched : List Row) (base : Nat) (fk : String)
    (st : Store) (parents : List Nat) : Store :=
  parents.foldl (attachOne ty key fetched base fk) st

/-- Requested columns of the child SELECT: the relation's columns, with the
    foreign-key column appended exactly when absent (src/unnamed/part_010
    lines 612-618). -/
def childCols (cols : List String) (fk : String) : List String :=
  if cols.contains fk then cols else cols ++ [fk]

/-- The child SELECT composed by `loadRelation` (src/unnamed/part_010 lines
    620-621). -/
def childQ (rel : Rel) (fk : String) (pids : List Val) : ChildQuery :=
  ⟨rel.table, childCols rel.cols fk, fk, pids⟩

/-- Collection of all attached child records across the parents
    (src/unnamed/part_010 lines 672-684): per parent, the value under the
    relation key contributes the single referenced row for one-to-one (skipped
    when it is the null sentinel, whose type assertion fails) or the whole
    referenced slice otherwise.  `collectStep` is the per-parent step. -/
def collectStep (ty key : String) (s : Store) (acc : List Nat) (pid : Nat) : List Nat :=
  let p := storeGet s pid
  if rowHas p key then
    match rowGet p key with
    | .ref r => if ty = OneToOne then acc ++ [r] else acc
    | .refs rs => if ty = OneToOne then acc else acc ++ rs
    | _ => acc
  else acc

/-- The collection loop over all parents, in result-set order. -/
def collectChildren (ty key : String) (s : Store) (parents : List Nat) : List Nat :=
  parents.foldl (collectStep ty key s) []

/-- Collection of the `id` values of the given rows, keeping only rows that
    carry an `id` key (src/unnamed/part_010 lines 580-586 and 686-692). -/
def collectIds (s : Store) (rowIds : List Nat) : List Val :=
  rowIds.foldl (fun acc rid =>
    let r := storeGet s rid
    if rowHas r "id" then acc ++ [rowGet r "id"] else acc) []

/-- Embedding of `QueryBuilder.loadRelation` (src/unnamed/part_010 lines
    601-699).  Returns the updated store and the trace of issued child
    queries.  An empty incoming parent-id list returns immediately (line 602).
    Otherwise the child SELECT requests the relation's columns plus the
    foreign-key column when absent, filtered by the foreign key being among
    the parent ids; the fetched rows are allocated at the end of the store;
    each parent row is mutated in place by the attach loop; and with a nested
    relation and a non-empty list of collected child ids, the loader recurses
    on the attached child records with foreign key `singular(table) + "_id"`. -/
def loadRelation (db : DBase) (st : Store) (parents : List Nat) :
    Rel → String → List Val → Store × List ChildQuery
  | .mk name ty table cols child, fk, pids =>
    if pids = [] then (st, [])
    else
      let q := childQ (.mk name ty table cols child) fk pids
      let fetched := execQuery db q
      let st2 := attachAll ty (relKey (.mk name ty table cols child)) fetched st.length fk
        (st ++ fetched) parents
      match child with
      | none => (st2, [q])
      | some nrel =>
        let allChild := collectChildren ty (relKey (.mk name ty table cols (some nrel))) st2 parents
        let childIDs := collectIds st2 allChild
        if childIDs = [] then (st2, [q])
        else
          let res := loadRelation db st2 allChild nrel (singular table ++ "_id") childIDs
          (res.1, q :: res.2)

/-- Embedding of `QueryBuilder.Get` (src/unnamed/part_010 lines 572-599) after
    the root fetch: `rootRows` are the store indices of the already-fetched
    root result rows.  Root ids are collected from rows carrying an `id`, the
    top-level foreign key is `singular(rootTable) + "_id"`, and each non-nil
    include is loaded in turn against the same root rows and root ids. -/
def getWithOpts (db : DBase) (st : Store) (rootRows : List Nat) (rootTable : String)
    (includes : List (Option Rel)) : Store × List ChildQuery :=
  let rootIDs := collectIds st rootRows
  let fk := singular rootTable ++ "_id"
  includes.foldl (fun acc inc =>
    match inc with
    | none => acc
    | some rel =>
      let res := loadRelation db acc.1 rootRows rel fk rootIDs
      (res.1, acc.2 ++ res.2)) (st, [])

/-- Demonstration database of the spec's nested-relation example: posts owned
    by users {1,1,2} and comments owned by posts {1,1,2}. -/
def demoDb : DBase :=
  [("posts",
    [[("id", .str "1"), ("user_id", .str "1"), ("title", .str "t1")],
     [("id", .str "2"), ("user_id", .str "1"), ("title", .str "t2")],
     [("id", .str "3"), ("user_id", .str "2"), ("title", .str "t3")]]),
   ("comments",
    [[("id", .str "1"), ("post_id", .str "1"), ("body", .str "c1")],
     [("id", .str "2"), ("post_id", .str "1"), ("body", .str "c2")],
     [("id", .str "3"), ("post_id", .str "2"), ("body", .str "c3")]])]

/-- Root result rows of the demonstration load: two users. -/
def demoStore : Store :=
  [[("id", Val.str "1"), ("name", Val.str "a")],
   [("id", Val.str "2"), ("name", Val.str "b")]]

/-- Relation chain of the demonstration load: users to posts to comments. -/
def demoRel : Rel :=
  .mk "posts" OneToMany "posts" ["id", "title"]
    (some (.mk "comments" OneToMany "comments" ["id", "body"] none))

/-! ### Row and store lemmas -/

/-- Reading the key just set. -/
theorem rowGet_rowSet_self (r : Row) (k : String) (v : Val) :
    rowGet (rowSet r k v) k = v := by
  induction r with
  | nil => simp [rowSet, rowGet]
  | cons p rest ih =>
    by_cases h : p.1 = k
    · simp [rowSet, h, rowGet]
    · simp [rowSet, h, rowGet, ih]

/-- Reading another key after a set. -/
theorem rowGet_rowSet_ne (r : Row) (k k1 : String) (v : Val) (h : k1 ≠ k) :
    rowGet (rowSet r k v) k1 = rowGet r k1 := by
  induction r with
  | nil => simp [rowSet, rowGet, Ne.symm h]
  | cons p rest ih =>
    by_cases hp : p.1 = k
    · subst hp
      simp [rowSet, rowGet, Ne.symm h, h]
    · by_cases hp1 : p.1 = k1
      · simp [rowSet, hp, rowGet, hp1, h]
      · simp [rowSet, hp, rowGet, hp1, ih]

/-- Presence of the key just set. -/
theorem rowHas_rowSet_self (r : Row) (k : String) (v : Val) :
    rowHas (rowSet r k v) k = true := by
  induction r with
  | nil => simp [rowSet, rowHas]
  | cons p rest ih =>
    by_cases h : p.1 = k
    · simp [rowSet, h, rowHas]
    · simp [rowSet, h, rowHas, ih]

/-- Presence of other keys is unchanged by a set. -/
theorem rowHas_rowSet_ne (r : Row) (k k1 : String) (v : Val) (h : k1 ≠ k) :
    rowHas (rowSet r k v) k1 = rowHas r k1 := by
  induction r with
  | nil => simp [rowSet, rowHas, Ne.symm h]
  | cons p rest ih =>
    by_cases hp : p.1 = k
    · subst hp
      simp [rowSet, rowHas, Ne.symm h, h]
    · by_cases hp1 : p.1 = k1
      · simp [rowSet, hp, rowHas, hp1, h]
      · simp [rowSet, hp, rowHas, hp1, ih]

/-- A set adds no key other than the one set. -/
theorem rowHas_rowSet_imp (r : Row) (k k1 : String) (v : Val)
    (h : rowHas (rowSet r k v) k1 = true) : rowHas r k1 = true ∨ k1 = k := by
  by_cases hk : k1 = k
  · exact Or.inr hk
  · exact Or.inl (by rw [← rowHas_rowSet_ne r k k1 v hk]; exact h)

/-- Store length is unchanged by a row replacement. -/
theorem length_storeSet (st : Store) (i : Nat) (r : Row) :
    (storeSet st i r).length = st.length := by
  simp [storeSet]

/-- Reading the row just replaced. -/
theorem storeGet_storeSet_self (st : Store) (i : Nat) (r : Row) (h : i < st.length) :
    storeGet (storeSet st i r) i = r := by
  simp [storeGet, storeSet, List.getD, List.getElem?_set_self, h]

/-- Reading another index after a row replacement. -/
theorem storeGet_storeSet_ne (st : Store) (i j : Nat) (r : Row) (h : j ≠ i) :
    storeGet (storeSet st i r) j = storeGet st j := by
  simp [storeGet, storeSet, List.getD, List.getElem?_set_ne (Ne.symm h)]

/-- Reading below the old length after appending rows. -/
theorem storeGet_append_lt (st : Store) (rows : List Row) (i : Nat) (h : i < st.length) :
    storeGet (st ++ rows) i = storeGet st i := by
  simp [storeGet, List.getD, List.getElem?_append_left h]

/-- Reading outside the allocated range yields the empty row. -/
theorem storeGet_out_of_range (st : Store) (i : Nat) (h : st.length ≤ i) :
    storeGet st i = [] := by
  simp [storeGet, List.getD, List.getElem?_eq_none h]

/-- Unfolding of the attach loop on an empty parent list. -/
theorem attachAll_nil (ty key : String) (f : List Row) (b : Nat) (fk : String) (st : Store) :
    attachAll ty key f b fk st [] = st := rfl

/-- Unfolding of the attach loop on a parent list. -/
theorem attachAll_cons (ty key : String) (f : List Row) (b : Nat) (fk : String)
    (st : Store) (p : Nat) (ps : List Nat) :
    attachAll ty key f b fk st (p :: ps) =
      attachAll ty key f b fk (attachOne ty key f b fk st p) ps := rfl

/-- One attach step preserves the store length. -/
theorem length_attachOne (ty key : String) (f : List Row) (b : Nat) (fk : String)
    (s : Store) (pid : Nat) :
    (attachOne ty key f b fk s pid).length = s.length := by
  simp [attachOne, length_storeSet]

/-- The attach loop preserves the store length. -/
theorem length_attachAll (ty key : String) (f : List Row) (b : Nat) (fk : String)
    (st : Store) (parents : List Nat) :
    (attachAll ty key f b fk st parents).length = st.length := by
  induction parents generalizing st with
  | nil => rfl
  | cons p ps ih => rw [attachAll_cons, ih, length_attachOne]

/-- One attach step leaves every other row unchanged. -/
theorem attachOne_other (ty key : String) (f : List Row) (b : Nat) (fk : String)
    (s : Store) (pid j : Nat) (h : j ≠ pid) :
    storeGet (attachOne ty key f b fk s pid) j = storeGet s j := by
  simp only [attachOne]
  exact storeGet_storeSet_ne _ _ _ _ h

/-- The attach loop leaves rows outside the parent list unchanged. -/
theorem attachAll_other (ty key : String) (f : List Row) (b : Nat) (fk : String)
    (st : Store) (parents : List Nat) (j : Nat) (h : j ∉ parents) :
    storeGet (attachAll ty key f b fk st parents) j = storeGet st j := by
  induction parents generalizing st with
  | nil => rfl
  | cons p ps ih =>
    have hj : j ≠ p := fun he => h (he ▸ List.mem_cons_self p ps)
    rw [attachAll_cons, ih _ (fun he => h (List.mem_cons_of_mem p he)),
      attachOne_other _ _ _ _ _ _ _ _ hj]

/-- One attach step on an in-range parent binds the attachment value of the
    parent's id under the relation key. -/
theorem attachOne_self (ty key : String) (f : List Row) (b : Nat) (fk : String)
    (s : Store) (pid : Nat) (h : pid < s.length) :
    storeGet (attachOne ty key f b fk s pid) pid =
      rowSet (storeGet s pid) key
        (attachVal ty (groupIdxs f b fk (rowGet (storeGet s pid) "id"))) := by
  simp only [attachOne]
  exact storeGet_storeSet_self _ _ _ h

/-- On duplicate-free parent lists, the attach loop rewrites each in-range
    parent row exactly once, to the single-step attach result on its original
    row. -/
theorem attachAll_self (ty key : String) (f : List Row) (b : Nat) (fk : String)
    (st : Store) (parents : List Nat) (pid : Nat) (hnd : parents.Nodup)
    (hmem : pid ∈ parents) (hlt : pid < st.length) :
    storeGet (attachAll ty key f b fk st parents) pid =
      rowSet (storeGet st pid) key
        (attachVal ty (groupIdxs f b fk (rowGet (storeGet st pid) "id"))) := by
  induction parents generalizing st with
  | nil => cases hmem
  | cons p ps ih =>
    rcases List.mem_cons.mp hmem with rfl | hmem1
    · have hps : pid ∉ ps := (List.nodup_cons.mp hnd).1
      rw [attachAll_cons, attachAll_other _ _ _ _ _ _ _ _ hps]
      exact attachOne_self _ _ _ _ _ _ _ hlt
    · have hnd1 := (List.nodup_cons.mp hnd).2
      have hp : pid ≠ p := fun he => (List.nodup_cons.mp hnd).1 (he ▸ hmem1)
      rw [attachAll_cons,
        ih _ hnd1 hmem1 (by rw [length_attachOne]; exact hlt),
        attachOne_other _ _ _ _ _ _ _ _ hp]

/-- Elements of a group are at or above the allocation base. -/
theorem groupIdxs_ge (f : List Row) (b : Nat) (fk : String) (v : Val) :
    ∀ j ∈ groupIdxs f b fk v, b ≤ j := by
  intro j hj
  simp only [groupIdxs, List.mem_map, List.mem_filter] at hj
  rcases hj with ⟨x, _, rfl⟩
  omega

/-- After the attach loop, each parent row is either unallocated (empty) or
    carries an attachment value under the relation key. -/
theorem attachAll_key_form (ty key : String) (f : List Row) (b : Nat) (fk : String)
    (st : Store) (parents : List Nat) (pid : Nat) (hmem : pid ∈ parents) :
    storeGet (attachAll ty key f b fk st parents) pid = [] ∨
    ∃ w, rowGet (storeGet (attachAll ty key f b fk st parents) pid) key =
      attachVal ty (groupIdxs f b fk w) := by
  induction parents generalizing st with
  | nil => cases hmem
  | cons p ps ih =>
    by_cases hmem1 : pid ∈ ps
    · rw [attachAll_cons]
      exact ih _ hmem1
    · have hpid : pid = p := by
        rcases List.mem_cons.mp hmem with rfl | h1
        · rfl
        · exact absurd h1 hmem1
      subst hpid
      rw [attachAll_cons, attachAll_other _ _ _ _ _ _ _ _ hmem1]
      by_cases hlt : pid < st.length
      · right
        rw [attachOne_self _ _ _ _ _ _ _ hlt]
        exact ⟨_, rowGet_rowSet_self _ _ _⟩
      · left
        exact storeGet_out_of_range _ _ (by rw [length_attachOne]; omega)

/-- Head with default is a member of a non-empty list. -/
theorem headD_mem {α : Type} (l : List α) (d : α) (h : l ≠ []) :
    l.headD d ∈ l := by
  cases l with
  | nil => exact absurd rfl h
  | cons a as => simp [List.headD]

/-- One collection step only adds indices at or above the base, provided the
    parent row is unallocated or carries an attachment value. -/
theorem collectStep_sub (ty key : String) (s : Store) (pid : Nat) (acc : List Nat)
    (f : List Row) (b : Nat) (fk : String)
    (hform : storeGet s pid = [] ∨
      ∃ w, rowGet (storeGet s pid) key = attachVal ty (groupIdxs f b fk w))
    (c : Nat) (hc : c ∈ collectStep ty key s acc pid) : c ∈ acc ∨ b ≤ c := by
  rcases hform with hemp | ⟨w, hw⟩
  · rw [collectStep] at hc
    simp only [hemp, rowHas] at hc
    exact Or.inl hc
  · by_cases hhas : rowHas (storeGet s pid) key = true
    · rw [collectStep] at hc
      simp only [hhas, if_true] at hc
      rw [hw] at hc
      by_cases hg : groupIdxs f b fk w = []
      · by_cases hty : ty = OneToOne
        · simp [attachVal, hg, hty] at hc
          exact Or.inl hc
        · simp [attachVal, hg, hty] at hc
          exact Or.inl hc
      · by_cases hty : ty = OneToOne
        · simp only [attachVal, hg, if_false, hty, if_true, Bool.false_eq_true] at hc
          simp only [List.mem_append, List.mem_singleton] at hc
          rcases hc with hc | rfl
          · exact Or.inl hc
          · exact Or.inr (groupIdxs_ge f b fk w _ (headD_mem _ _ hg))
        · simp only [attachVal, hg, if_false, hty, Bool.false_eq_true] at hc
          simp only [List.mem_append] at hc
          rcases hc with hc | hc
          · exact Or.inl hc
          · exact Or.inr (groupIdxs_ge f b fk w _ hc)
    · rw [collectStep] at hc
      simp only [Bool.not_eq_true] at hhas
      simp only [hhas, Bool.false_eq_true, if_false] at hc
      exact Or.inl hc

/-- The collected child indices all sit at or above the allocation base when
    every parent row is unallocated or carries an attachment value. -/
theorem collectChildren_ge (ty key : String) (s : Store) (parents : List Nat)
    (f : List Row) (b : Nat) (fk : String)
    (hform : ∀ pid ∈ parents, storeGet s pid = [] ∨
      ∃ w, rowGet (storeGet s pid) key = attachVal ty (groupIdxs f b fk w)) :
    ∀ c ∈ collectChildren ty key s parents, b ≤ c := by
  have main : ∀ (ps : List Nat) (acc : List Nat),
      (∀ pid ∈ ps, storeGet s pid = [] ∨
        ∃ w, rowGet (storeGet s pid) key = attachVal ty (groupIdxs f b fk w)) →
      (∀ c ∈ acc, b ≤ c) → ∀ c ∈ ps.foldl (collectStep ty key s) acc, b ≤ c := by
    intro ps
    induction ps with
    | nil => intro acc _ hacc c hc; exact hacc c hc
    | cons p ps1 ih =>
      intro acc hps hacc c hc
      rw [List.foldl_cons] at hc
      refine ih _ (fun pid hm => hps pid (List.mem_cons_of_mem p hm)) ?_ c hc
      intro c1 hc1
      rcases collectStep_sub ty key s p acc f b fk (hps p (List.mem_cons_self p ps1)) c1 hc1 with
        h1 | h1
      · exact hacc c1 h1
      · exact h1
  exact main parents [] hform (by intro c hc; cases hc)

/-- Unfolding of the loader on an empty parent-id list. -/
theorem loadRelation_empty (db : DBase) (st : Store) (parents : List Nat)
    (name ty table : String) (cols : List String) (child : Option Rel)
    (fk : String) (pids : List Val) (h : pids = []) :
    loadRelation db st parents (.mk name ty table cols child) fk pids = (st, []) := by
  simp [loadRelation, h]

/-- Unfolding of the loader on a chain end with parent ids present. -/
theorem loadRelation_step_none (db : DBase) (st : Store) (parents : List Nat)
    (name ty table : String) (cols : List String) (fk : String) (pids : List Val)
    (h : pids ≠ []) :
    loadRelation db st parents (.mk name ty table cols none) fk pids =
      (attachAll ty (relKey (.mk name ty table cols none))
        (execQuery db (childQ (.mk name ty table cols none) fk pids)) st.length fk
        (st ++ execQuery db (childQ (.mk name ty table cols none) fk pids)) parents,
       [childQ (.mk name ty table cols none) fk pids]) := by
  simp [loadRelation, h]

/-- Unfolding of the loader on a chain link with parent ids present. -/
theorem loadRelation_step_some (db : DBase) (st : Store) (parents : List Nat)
    (name ty table : String) (cols : List String) (nrel : Rel) (fk : String)
    (pids : List Val) (h : pids ≠ []) :
    loadRelation db st parents (.mk name ty table cols (some nrel)) fk pids =
      (if collectIds
            (attachAll ty (relKey (.mk name ty table cols (some nrel)))
              (execQuery db (childQ (.mk name ty table cols (some nrel)) fk pids)) st.length fk
              (st ++ execQuery db (childQ (.mk name ty table cols (some nrel)) fk pids)) parents)
            (collectChildren ty (relKey (.mk name ty table cols (some nrel)))
              (attachAll ty (relKey (.mk name ty table cols (some nrel)))
                (execQuery db (childQ (.mk name ty table cols (some nrel)) fk pids)) st.length fk
                (st ++ execQuery db (childQ (.mk name ty table cols (some nrel)) fk pids)) parents)
              parents) = []
       then
        (attachAll ty (relKey (.mk name ty table cols (some nrel)))
          (execQuery db (childQ (.mk name ty table cols (some nrel)) fk pids)) st.length fk
          (st ++ execQuery db (childQ (.mk name ty table cols (some nrel)) fk pids)) parents,
         [childQ (.mk name ty table cols (some nrel)) fk pids])
       else
        ((loadRelation db
            (attachAll ty (relKey (.mk name ty table cols (some nrel)))
              (execQuery db (childQ (.mk name ty table cols (some nrel)) fk pids)) st.length fk
              (st ++ execQuery db (childQ (.mk name ty table cols (some nrel)) fk pids)) parents)
            (collectChildren ty (relKey (.mk name ty table cols (some nrel)))
              (attachAll ty (relKey (.mk name ty table cols (some nrel)))
                (execQuery db (childQ (.mk name ty table cols (some nrel)) fk pids)) st.length fk
                (st ++ execQuery db (childQ (.mk name ty table cols (some nrel)) fk pids)) parents)
              parents)
            nrel (singular table ++ "_id")
            (collectIds
              (attachAll ty (relKey (.mk name ty table cols (some nrel)))
                (execQuery db (childQ (.mk name ty table cols (some nrel)) fk pids)) st.length fk
                (st ++ execQuery db (childQ (.mk name ty table cols (some nrel)) fk pids)) parents)
              (collectChildren ty (relKey (.mk name ty table cols (some nrel)))
                (attachAll ty (relKey (.mk name ty table cols (some nrel)))
                  (execQuery db (childQ (.mk name ty table cols (some nrel)) fk pids)) st.length fk
                  (st ++ execQuery db (childQ (.mk name ty table cols (some nrel)) fk pids)) parents)
                parents))).1,
         childQ (.mk name ty table cols (some nrel)) fk pids ::
          (loadRelation db
            (attachAll ty (relKey (.mk name ty table cols (some nrel)))
              (execQuery db (childQ (.mk name ty table cols (some nrel)) fk pids)) st.length fk
              (st ++ execQuery db (childQ (.mk name ty table cols (some nrel)) fk pids)) parents)
            (collectChildren ty (relKey (.mk name ty table cols (some nrel)))
              (attachAll ty (relKey (.mk name ty table cols (some nrel)))
                (execQuery db (childQ (.mk name ty table cols (some nrel)) fk pids)) st.length fk
                (st ++ execQuery db (childQ (.mk name ty table cols (some nrel)) fk pids)) parents)
              parents)
            nrel (singular table ++ "_id")
            (collectIds
              (attachAll ty (relKey (.mk name ty table cols (some nrel)))
                (execQuery db (childQ (.mk name ty table cols (some nrel)) fk pids)) st.length fk
                (st ++ execQuery db (childQ (.mk name ty table cols (some nrel)) fk pids)) parents)
              (collectChildren ty (relKey (.mk name ty table cols (some nrel)))
                (attachAll ty (relKey (.mk name ty table cols (some nrel)))
                  (execQuery db (childQ (.mk name ty table cols (some nrel)) fk pids)) st.length fk
                  (st ++ execQuery db (childQ (.mk name ty table cols (some nrel)) fk pids)) parents)
                parents))).2)) := by
  simp [loadRelation, h]

/-- The relation loader only grows the store. -/
theorem loadRelation_length (db : DBase) (st : Store) (parents : List Nat) (r : Rel)
    (fk : String) (pids : List Val) :
    st.length ≤ (loadRelation db st parents r fk pids).1.length := by
  induction st, parents, r, fk, pids using loadRelation.induct db with
  | case1 st parents name ty table cols child fk =>
    rw [loadRelation_empty db st parents name ty table cols child fk [] rfl]
  | case2 st parents name ty table cols fk pids h =>
    rw [loadRelation_step_none db st parents name ty table cols fk pids h]
    show st.length ≤ (attachAll _ _ _ _ _ _ _).length
    rw [length_attachAll, List.length_append]
    omega
  | case3 st parents name ty table cols fk pids h nrel q fetched st2 allChild childIDs hcid =>
    simp only [childIDs, allChild, st2, fetched, q] at hcid
    rw [loadRelation_step_some db st parents name ty table cols nrel fk pids h, if_pos hcid]
    show st.length ≤ (attachAll _ _ _ _ _ _ _).length
    rw [length_attachAll, List.length_append]
    omega
  | case4 st parents name ty table cols fk pids h nrel q fetched st2 allChild childIDs hcid ih =>
    simp only [childIDs, allChild, st2, fetched, q] at hcid ih
    rw [loadRelation_step_some db st parents name ty table cols nrel fk pids h, if_neg hcid]
    show st.length ≤ (loadRelation db _ _ nrel _ _).1.length
    refine le_trans ?_ ih
    rw [length_attachAll, List.length_append]
    omega

/-- The relation loader leaves every previously allocated row outside the
    parent list untouched. -/
theorem loadRelation_untouched (db : DBase) (st : Store) (parents : List Nat) (r : Rel)
    (fk : String) (pids : List Val) :
    ∀ j, j < st.length → j ∉ parents →
      storeGet (loadRelation db st parents r fk pids).1 j = storeGet st j := by
  induction st, parents, r, fk, pids using loadRelation.induct db with
  | case1 st parents name ty table cols child fk =>
    intro j hj hjp
    rw [loadRelation_empty db st parents name ty table cols child fk [] rfl]
  | case2 st parents name ty table cols fk pids h =>
    intro j hj hjp
    rw [loadRelation_step_none db st parents name ty table cols fk pids h]
    show storeGet (attachAll _ _ _ _ _ _ _) j = storeGet st j
    rw [attachAll_other _ _ _ _ _ _ _ _ hjp, storeGet_append_lt _ _ _ hj]
  | case3 st parents name ty table cols fk pids h nrel q fetched st2 allChild childIDs hcid =>
    intro j hj hjp
    simp only [childIDs, allChild, st2, fetched, q] at hcid
    rw [loadRelation_step_some db st parents name ty table cols nrel fk pids h, if_pos hcid]
    show storeGet (attachAll _ _ _ _ _ _ _) j = storeGet st j
    rw [attachAll_other _ _ _ _ _ _ _ _ hjp, storeGet_append_lt _ _ _ hj]
  | case4 st parents name ty table cols fk pids h nrel q fetched st2 allChild childIDs hcid ih =>
    intro j hj hjp
    simp only [childIDs, allChild, st2, fetched, q] at hcid ih
    rw [loadRelation_step_some db st parents name ty table cols nrel fk pids h, if_neg hcid]
    show storeGet (loadRelation db _ _ nrel _ _).1 j = storeGet st j
    have hform := fun pid hp => attachAll_key_form ty
      (relKey (.mk name ty table cols (some nrel)))
      (execQuery db (childQ (.mk name ty table cols (some nrel)) fk pids)) st.length fk
      (st ++ execQuery db (childQ (.mk name ty table cols (some nrel)) fk pids)) parents pid hp
    have hge := collectChildren_ge ty (relKey (.mk name ty table cols (some nrel)))
      (attachAll ty (relKey (.mk name ty table cols (some nrel)))
        (execQuery db (childQ (.mk name ty table cols (some nrel)) fk pids)) st.length fk
        (st ++ execQuery db (childQ (.mk name ty table cols (some nrel)) fk pids)) parents)
      parents
      (execQuery db (childQ (.mk name ty table cols (some nrel)) fk pids)) st.length fk hform
    have hjc : j ∉ collectChildren ty (relKey (.mk name ty table cols (some nrel)))
        (attachAll ty (relKey (.mk name ty table cols (some nrel)))
          (execQuery db (childQ (.mk name ty table cols (some nrel)) fk pids)) st.length fk
          (st ++ execQuery db (childQ (.mk name ty table cols (some nrel)) fk pids)) parents)
        parents := fun hm => absurd (hge j hm) (by omega)
    rw [ih j (by rw [length_attachAll, List.length_append]; omega) hjc]
    rw [attachAll_other _ _ _ _ _ _ _ _ hjp, storeGet_append_lt _ _ _ hj]

/-- With duplicate-free in-range parents and a non-empty parent-id list, each
    parent row after the load is its original row with the attachment value of
    its id bound under the relation key; nested loads never touch it again. -/
theorem loadRelation_parent_row (db : DBase) (st : Store) (parents : List Nat) (r : Rel)
    (fk : String) (pids : List Val) (hnd : parents.Nodup)
    (hlt : ∀ i ∈ parents, i < st.length) (hne : pids ≠ [])
    (pid : Nat) (hmem : pid ∈ parents) :
    storeGet (loadRelation db st parents r fk pids).1 pid =
      rowSet (storeGet st pid) (relKey r)
        (attachVal r.ty (groupIdxs (execQuery db (childQ r fk pids)) st.length fk
          (rowGet (storeGet st pid) "id"))) := by
  obtain ⟨name, ty, table, cols, child⟩ := r
  have hplt : pid < st.length := hlt pid hmem
  have hplt2 : pid < (st ++ execQuery db
      (childQ (.mk name ty table cols child) fk pids)).length := by
    rw [List.length_append]; omega
  have hattach : storeGet (attachAll ty (relKey (.mk name ty table cols child))
      (execQuery db (childQ (.mk name ty table cols child) fk pids)) st.length fk
      (st ++ execQuery db (childQ (.mk name ty table cols child) fk pids)) parents) pid =
      rowSet (storeGet st pid) (relKey (.mk name ty table cols child))
        (attachVal ty (groupIdxs (execQuery db (childQ (.mk name ty table cols child) fk pids))
          st.length fk (rowGet (storeGet st pid) "id"))) := by
    rw [attachAll_self _ _ _ _ _ _ _ _ hnd hmem hplt2,
      storeGet_append_lt _ _ _ hplt]
  cases child with
  | none =>
    rw [loadRelation_step_none db st parents name ty table cols fk pids hne]
    exact hattach
  | some nrel =>
    rw [loadRelation_step_some db st parents name ty table cols nrel fk pids hne]
    by_cases hcid : collectIds
        (attachAll ty (relKey (.mk name ty table cols (some nrel)))
          (execQuery db (childQ (.mk name ty table cols (some nrel)) fk pids)) st.length fk
          (st ++ execQuery db (childQ (.mk name ty table cols (some nrel)) fk pids)) parents)
        (collectChildren ty (relKey (.mk name ty table cols (some nrel)))
          (attachAll ty (relKey (.mk name ty table cols (some nrel)))
            (execQuery db (childQ (.mk name ty table cols (some nrel)) fk pids)) st.length fk
            (st ++ execQuery db (childQ (.mk name ty table cols (some nrel)) fk pids)) parents)
          parents) = []
    · rw [if_pos hcid]
      exact hattach
    · rw [if_neg hcid]
      show storeGet (loadRelation db _ _ nrel _ _).1 pid = _
      have hform := fun pid1 hp => attachAll_key_form ty
        (relKey (.mk name ty table cols (some nrel)))
        (execQuery db (childQ (.mk name ty table cols (some nrel)) fk pids)) st.length fk
        (st ++ execQuery db (childQ (.mk name ty table cols (some nrel)) fk pids)) parents pid1 hp
      have hge := collectChildren_ge ty (relKey (.mk name ty table cols (some nrel)))
        (attachAll ty (relKey (.mk name ty table cols (some nrel)))
          (execQuery db (childQ (.mk name ty table cols (some nrel)) fk pids)) st.length fk
          (st ++ execQuery db (childQ (.mk name ty table cols (some nrel)) fk pids)) parents)
        parents
        (execQuery db (childQ (.mk name ty table cols (some nrel)) fk pids)) st.length fk hform
      have hpc : pid ∉ collectChildren ty (relKey (.mk name ty table cols (some nrel)))
          (attachAll ty (relKey (.mk name ty table cols (some nrel)))
            (execQuery db (childQ (.mk name ty table cols (some nrel)) fk pids)) st.length fk
            (st ++ execQuery db (childQ (.mk name ty table cols (some nrel)) fk pids)) parents)
          parents := fun hm => absurd (hge pid hm) (by omega)
      rw [loadRelation_untouched db _ _ nrel _ _ pid
        (by rw [length_attachAll, List.length_append]; omega) hpc]
      exact hattach

/-- A group is empty exactly when no fetched row carries the foreign-key
    value. -/
theorem groupIdxs_eq_nil_iff (f : List Row) (b : Nat) (fk : String) (v : Val) :
    groupIdxs f b fk v = [] ↔ ∀ row ∈ f, rowGet row fk ≠ v := by
  simp only [groupIdxs, List.map_eq_nil_iff, List.filter_eq_nil_iff, List.mem_range,
    decide_eq_true_eq]
  constructor
  · intro h row hrow hv
    obtain ⟨j, hj, rfl⟩ := List.mem_iff_getElem.mp hrow
    exact h j hj (by rw [List.getD_eq_getElem?_getD, List.getElem?_eq_getElem hj]; exact hv)
  · intro h j hj hv
    exact h (f.getD j []) (by
      rw [List.getD_eq_getElem?_getD, List.getElem?_eq_getElem hj]
      exact List.getElem_mem hj) hv

/-- A root result row that carries no `id` column. -/
def noIdStore : Store := [[("name", Val.str "a")]]

/-- Claim C3 counterexample.  When no parent row carries an `id` (so the
    collected parent-id list is empty), the loader returns before attaching:
    after the load the one-to-many relation key `posts` is absent from the
    parent row — not bound to an empty slice — and the whole store is
    unchanged. -/
theorem relation_key_absent_counterexample :
    rowHas (storeGet (getWithOpts demoDb noIdStore [0] "users" [some demoRel]).1 0)
      (relKey demoRel) = false ∧
    relKey demoRel = "posts" ∧
    (getWithOpts demoDb noIdStore [0] "users" [some demoRel]).1 = noIdStore := by
  decide

/-- Claim C3 (amended).  In every relation load whose incoming parent-id list
    is non-empty (over duplicate-free, in-range parent rows): the attachment
    key — plural of the child table for one-to-many, singular for one-to-one —
    is present in every parent row after loading.  For one-to-many it is bound
    to the full grouped slice of matching child rows and to the empty slice
    (never absent, never null) when no fetched child matches the parent's id;
    for one-to-one it is bound to the first grouped row, or to the null
    sentinel exactly when no fetched child matches.  When the incoming
    parent-id list is empty the loader returns without attaching and the key
    can stay absent. -/
theorem loadRelation_attach_shape (db : DBase) (st : Store) (parents : List Nat)
    (r : Rel) (fk : String) (pids : List Val) (hnd : parents.Nodup)
    (hlt : ∀ i ∈ parents, i < st.length) (hne : pids ≠ []) :
    ∀ pid ∈ parents,
      rowHas (storeGet (loadRelation db st parents r fk pids).1 pid) (relKey r) = true ∧
      (r.ty ≠ OneToOne → relKey r = plural r.table ∧
        rowGet (storeGet (loadRelation db st parents r fk pids).1 pid) (relKey r) =
          .refs (groupIdxs (execQuery db (childQ r fk pids)) st.length fk
            (rowGet (storeGet st pid) "id")) ∧
        (groupIdxs (execQuery db (childQ r fk pids)) st.length fk
            (rowGet (storeGet st pid) "id") = [] ↔
          ∀ row ∈ execQuery db (childQ r fk pids),
            rowGet row fk ≠ rowGet (storeGet st pid) "id")) ∧
      (r.ty = OneToOne → relKey r = singular r.table ∧
        ((∀ row ∈ execQuery db (childQ r fk pids),
            rowGet row fk ≠ rowGet (storeGet st pid) "id") →
          rowGet (storeGet (loadRelation db st parents r fk pids).1 pid) (relKey r) =
            .null) ∧
        (∀ j l, groupIdxs (execQuery db (childQ r fk pids)) st.length fk
            (rowGet (storeGet st pid) "id") = j :: l →
          rowGet (storeGet (loadRelation db st parents r fk pids).1 pid) (relKey r) =
            .ref j)) := by
  intro pid hmem
  have hrow := loadRelation_parent_row db st parents r fk pids hnd hlt hne pid hmem
  refine ⟨?_, ?_, ?_⟩
  · rw [hrow]
    exact rowHas_rowSet_self _ _ _
  · intro hty
    refine ⟨by simp [relKey, hty], ?_, groupIdxs_eq_nil_iff _ _ _ _⟩
    rw [hrow, rowGet_rowSet_self]
    by_cases hg : groupIdxs (execQuery db (childQ r fk pids)) st.length fk
        (rowGet (storeGet st pid) "id") = []
    · rw [attachVal, if_pos hg, if_neg hty, hg]
    · rw [attachVal, if_neg hg, if_neg hty]
  · intro hty
    refine ⟨by simp [relKey, hty], ?_, ?_⟩
    · intro hnomatch
      have hg : groupIdxs (execQuery db (childQ r fk pids)) st.length fk
          (rowGet (storeGet st pid) "id") = [] :=
        (groupIdxs_eq_nil_iff _ _ _ _).mpr hnomatch
      rw [hrow, rowGet_rowSet_self, attachVal, if_pos hg, if_pos hty]
    · intro j l hg
      rw [hrow, rowGet_rowSet_self, attachVal, if_neg (by simp [hg]), if_pos hty, hg]
      rfl

/-- Witness for claim C3 (amended): in the demonstration load the first user
    row carries the `posts` key, bound to the slice of its two matching post
    rows. -/
theorem loadRelation_attach_shape_witness :
    rowHas (storeGet (loadRelation demoDb demoStore [0, 1] demoRel "user_id"
        [Val.str "1", Val.str "2"]).1 0) (relKey demoRel) = true ∧
    rowGet (storeGet (loadRelation demoDb demoStore [0, 1] demoRel "user_id"
        [Val.str "1", Val.str "2"]).1 0) (relKey demoRel) =
      .refs (groupIdxs (execQuery demoDb (childQ demoRel "user_id"
        [Val.str "1", Val.str "2"])) demoStore.length "user_id"
        (rowGet (storeGet demoStore 0) "id")) := by
  have h := loadRelation_attach_shape demoDb demoStore [0, 1] demoRel "user_id"
    [Val.str "1", Val.str "2"] (by decide) (by decide) (by decide) 0 (by decide)
  exact ⟨h.1, (h.2.1 (by decide)).2.1⟩

/-- Claim C10.  The relation loader mutates each parent row in place by
    binding only the single relation attachment key: rows of the input result
    set other than the parents are untouched; in every parent row each column
    key other than the relation key maps to its original value (and keeps its
    original presence); and no key other than the relation key is added. -/
theorem loadRelation_frame_effect (db : DBase) (st : Store) (parents : List Nat)
    (r : Rel) (fk : String) (pids : List Val) (hnd : parents.Nodup)
    (hlt : ∀ i ∈ parents, i < st.length) :
    (∀ j, j < st.length → j ∉ parents →
      storeGet (loadRelation db st parents r fk pids).1 j = storeGet st j) ∧
    (∀ pid ∈ parents, ∀ k, k ≠ relKey r →
      rowGet (storeGet (loadRelation db st parents r fk pids).1 pid) k =
        rowGet (storeGet st pid) k ∧
      rowHas (storeGet (loadRelation db st parents r fk pids).1 pid) k =
        rowHas (storeGet st pid) k) ∧
    (∀ pid ∈ parents, ∀ k,
      rowHas (storeGet (loadRelation db st parents r fk pids).1 pid) k = true →
      rowHas (storeGet st pid) k = true ∨ k = relKey r) := by
  by_cases hne : pids = []
  · obtain ⟨name, ty, table, cols, child⟩ := r
    rw [loadRelation_empty db st parents name ty table cols child fk pids hne]
    exact ⟨fun j _ _ => rfl, fun pid _ k _ => ⟨rfl, rfl⟩,
      fun pid _ k h => Or.inl h⟩
  · refine ⟨loadRelation_untouched db st parents r fk pids, ?_, ?_⟩
    · intro pid hmem k hk
      rw [loadRelation_parent_row db st parents r fk pids hnd hlt hne pid hmem]
      exact ⟨rowGet_rowSet_ne _ _ _ _ hk, rowHas_rowSet_ne _ _ _ _ hk⟩
    · intro pid hmem k hk
      rw [loadRelation_parent_row db st parents r fk pids hnd hlt hne pid hmem] at hk
      exact rowHas_rowSet_imp _ _ _ _ hk

/-- Witness for claim C10: in the demonstration load, the first user row keeps
    its `name` column and its sibling row is only reachable through the
    relation key. -/
theorem loadRelation_frame_effect_witness :
    rowGet (storeGet (loadRelation demoDb demoStore [0, 1] demoRel "user_id"
        [Val.str "1", Val.str "2"]).1 0) "name" =
      rowGet (storeGet demoStore 0) "name" ∧
    (∀ k, rowHas (storeGet (loadRelation demoDb demoStore [0, 1] demoRel "user_id"
        [Val.str "1", Val.str "2"]).1 0) k = true →
      rowHas (storeGet demoStore 0) k = true ∨ k = relKey demoRel) := by
  have h := loadRelation_frame_effect demoDb demoStore [0, 1] demoRel "user_id"
    [Val.str "1", Val.str "2"] (by decide) (by decide)
  exact ⟨(h.2.1 0 (by decide) "name" (by decide)).1, h.2.2 0 (by decide)⟩

/-- With parent ids present, the first issued query is the composed child
    SELECT. -/
theorem loadRelation_trace_head (db : DBase) (st : Store) (parents : List Nat)
    (r : Rel) (fk : String) (pids : List Val) (hne : pids ≠ []) :
    ∃ rest, (loadRelation db st parents r fk pids).2 = childQ r fk pids :: rest := by
  obtain ⟨name, ty, table, cols, child⟩ := r
  cases child with
  | none =>
    rw [loadRelation_step_none db st parents name ty table cols fk pids hne]
    exact ⟨[], rfl⟩
  | some nrel =>
    rw [loadRelation_step_some db st parents name ty table cols nrel fk pids hne]
    split
    · exact ⟨[], rfl⟩
    · exact ⟨_, rfl⟩

/-- The queries issued after the first one belong to the nested relation and
    use the foreign key derived from the current child table. -/
theorem loadRelation_trace_tail (db : DBase) (st : Store) (parents : List Nat)
    (name ty table : String) (cols : List String) (nrel : Rel) (fk : String)
    (pids : List Val) (hne : pids ≠ []) :
    (loadRelation db st parents (.mk name ty table cols (some nrel)) fk pids).2.tail = [] ∨
    ∃ q1 rest1,
      (loadRelation db st parents (.mk name ty table cols (some nrel)) fk pids).2.tail =
        q1 :: rest1 ∧ q1.fkCol = singular table ++ "_id" := by
  rw [loadRelation_step_some db st parents name ty table cols nrel fk pids hne]
  split
  · left
    rfl
  · next hcid =>
    right
    obtain ⟨rest, hrest⟩ := loadRelation_trace_head db _ _ nrel (singular table ++ "_id") _ hcid
    exact ⟨_, rest, hrest, rfl⟩

/-- Semantic description of the executed child SELECT: its result rows are
    exactly the table rows whose foreign-key value is among the parent ids,
    projected onto the requested columns. -/
theorem mem_execQuery (db : DBase) (q : ChildQuery) (row : Row) :
    row ∈ execQuery db q ↔ ∃ r0 ∈ dbTable db q.table,
      rowGet r0 q.fkCol ∈ q.parentIDs ∧ row = projectRow q.cols r0 := by
  simp only [execQuery, List.mem_map, List.mem_filter, decide_eq_true_eq]
  constructor
  · rintro ⟨a, ⟨ha, hin⟩, rfl⟩
    exact ⟨a, ha, hin, rfl⟩
  · rintro ⟨a, ha, hin, rfl⟩
    exact ⟨a, ⟨ha, hin⟩, rfl⟩

/-- A `Get` with a single include delegates to one relation load with the
    root-derived foreign key and the collected root ids. -/
theorem getWithOpts_single (db : DBase) (st : Store) (rootRows : List Nat)
    (rootTable : String) (r : Rel) :
    getWithOpts db st rootRows rootTable [some r] =
      loadRelation db st rootRows r (singular rootTable ++ "_id")
        (collectIds st rootRows) := by
  simp [getWithOpts]

/-- Claim C7.  In every relation load: an empty incoming parent-id list issues
    no child query at all (and changes nothing); with parent ids present the
    first issued query is the child SELECT whose filter column is the given
    foreign key and whose filter values are exactly the parent ids; the
    requested columns get the foreign-key column appended exactly when it is
    not already among them; the executed query returns exactly the child-table
    rows whose foreign-key value is among the parent ids; the query issued for
    a nested relation uses `singular(childTable) + "_id"`; a top-level load
    through `Get` uses `singular(rootTable) + "_id"` (for the users root,
    `user_id`); and the demonstration load issues exactly the two expected
    queries. -/
theorem relation_fk_query_shape (db : DBase) (st : Store) (parents : List Nat)
    (r : Rel) (fk rootTable : String) (pids : List Val) (rootRows : List Nat) :
    loadRelation db st parents r fk [] = (st, []) ∧
    (pids ≠ [] →
      ∃ rest, (loadRelation db st parents r fk pids).2 = childQ r fk pids :: rest) ∧
    (childQ r fk pids).fkCol = fk ∧
    (childQ r fk pids).parentIDs = pids ∧
    (¬ r.cols.contains fk = true → (childQ r fk pids).cols = r.cols ++ [fk]) ∧
    (r.cols.contains fk = true → (childQ r fk pids).cols = r.cols) ∧
    (∀ row ∈ execQuery db (childQ r fk pids), ∃ r0 ∈ dbTable db r.table,
      rowGet r0 fk ∈ pids ∧ row = projectRow (childQ r fk pids).cols r0) ∧
    (∀ name ty table cols nrel, r = .mk name ty table cols (some nrel) → pids ≠ [] →
      ((loadRelation db st parents r fk pids).2.tail = [] ∨
       ∃ q1 rest1, (loadRelation db st parents r fk pids).2.tail = q1 :: rest1 ∧
         q1.fkCol = singular table ++ "_id")) ∧
    getWithOpts db st rootRows rootTable [some r] =
      loadRelation db st rootRows r (singular rootTable ++ "_id")
        (collectIds st rootRows) ∧
    singular "users" ++ "_id" = "user_id" ∧
    (getWithOpts demoDb demoStore [0, 1] "users" [some demoRel]).2 =
      [⟨"posts", ["id", "title", "user_id"], "user_id", [.str "1", .str "2"]⟩,
       ⟨"comments", ["id", "body", "post_id"], "post_id",
         [.str "1", .str "2", .str "3"]⟩] := by
  refine ⟨?_, loadRelation_trace_head db st parents r fk pids, rfl, rfl, ?_, ?_,
    ?_, ?_, getWithOpts_single db st rootRows rootTable r, by decide, by decide⟩
  · obtain ⟨name, ty, table, cols, child⟩ := r
    exact loadRelation_empty db st parents name ty table cols child fk [] rfl
  · intro h
    simp only [childQ, childCols, if_neg h]
  · intro h
    simp only [childQ, childCols, if_pos h]
  · intro row hrow
    exact (mem_execQuery db (childQ r fk pids) row).mp hrow
  · intro name ty table cols nrel hr hne
    subst hr
    exact loadRelation_trace_tail db st parents name ty table cols nrel fk pids hne

/-- Witness for claim C7 at the demonstration load: the first issued query is
    the composed posts SELECT, and the foreign-key column was appended to its
    requested columns. -/
theorem relation_fk_query_shape_witness :
    (∃ rest, (loadRelation demoDb demoStore [0, 1] demoRel "user_id"
        [Val.str "1", Val.str "2"]).2 =
      childQ demoRel "user_id" [Val.str "1", Val.str "2"] :: rest) ∧
    (childQ demoRel "user_id" [Val.str "1", Val.str "2"]).cols =
      demoRel.cols ++ ["user_id"] := by
  have h := relation_fk_query_shape demoDb demoStore [0, 1] demoRel "user_id" "users"
    [Val.str "1", Val.str "2"] [0, 1]
  exact ⟨h.2.1 (by decide), h.2.2.2.2.1 (by decide)⟩

end DbSpec
